import Mathlib

/-!
Verification development for the `termbox` Deno library (`mod.ts`): a
cell-addressable terminal rendering abstraction.  The definitions below are a
shallow embedding of the source module (the revision that contains
`cursorPosition`, whose `isTTY` checks both stdout and stdin).  Strings are
modelled as `List Char` (one element per Unicode code point); JavaScript's
UTF-16 `String.length` is modelled by `jsLength`.
-/

/-- UTF-16 code-unit count of one code point, as JavaScript counts it:
astral-plane code points occupy two code units. -/
def utf16Len (c : Char) : Nat := if c.toNat < 65536 then 1 else 2

/-- JavaScript `String.prototype.length` of a string given as code points. -/
def jsLength (s : List Char) : Nat := (s.map utf16Len).sum

/-! ### A backtracking regular-expression engine

`ANSI_PATTERN` in the source is a JavaScript regex (chalk's `ansi-regex`).
JavaScript regex matching is backtracking: alternation prefers the left
branch, quantifiers are greedy.  `MtchF r fuel s` returns the list of
suffixes remaining after a match of `r` at the start of `s`, in the order the
backtracking engine would produce them; the head is the match JavaScript
reports.  `fuel` bounds star iterations; every starred subpattern of
`ANSI_PATTERN` consumes at least one character per iteration, so
`fuel = s.length` never truncates (non-consuming iterations are filtered
out, mirroring the engine's empty-match loop guard). -/
inductive RE where
  | eps : RE
  | cls (p : Char → Bool) : RE
  | seq (a b : RE) : RE
  | alt (a b : RE) : RE
  | opt (a : RE) : RE
  | star (a : RE) : RE

/-- Greedy star iteration of a body matcher `m`: try as many iterations as
possible first, then fewer, finally zero; an iteration that consumes nothing
ends the loop.  `f` bounds the number of iterations; since every iteration
consumes at least one character, `f = s.length` never truncates. -/
def starIter (m : List Char → List (List Char)) : Nat → List Char → List (List Char)
  | 0, s => [s]
  | f + 1, s =>
      ((m s).filter (fun t => decide (t.length < s.length))).flatMap
        (fun t => starIter m f t) ++ [s]

/-- Suffixes after a match of `r` at the start of `s`, in backtracking order. -/
def Mtch : RE → List Char → List (List Char)
  | .eps, s => [s]
  | .cls _, [] => []
  | .cls p, c :: cs => if p c then [cs] else []
  | .seq a b, s => (Mtch a s).flatMap (fun t => Mtch b t)
  | .alt a b, s => Mtch a s ++ Mtch b s
  | .opt a, s => Mtch a s ++ [s]
  | .star a, s => starIter (fun t => Mtch a t) s.length s

/-! ### The `ANSI_PATTERN` character classes (from the source regex) -/

/-- The introducer class of the regex: `[\u001B\u009B]`. -/
def isIntro (c : Char) : Bool := c == '\u001B' || c == '\u009B'

/-- The bracket class of the regex: `[[\]()#;?]`. -/
def isIntro2 (c : Char) : Bool :=
  c == '[' || c == ']' || c == '(' || c == ')' || c == '#' || c == ';' || c == '?'

/-- The digit class of the regex (ASCII `0`-`9`). -/
def isDigitC (c : Char) : Bool := 48 ≤ c.toNat && c.toNat ≤ 57

/-- ASCII letter, `a`-`z` or `A`-`Z`. -/
def isAsciiLetter (c : Char) : Bool :=
  (65 ≤ c.toNat && c.toNat ≤ 90) || (97 ≤ c.toNat && c.toNat ≤ 122)

/-- The class `[a-zA-Z\d]` of the regex. -/
def isAlnumC (c : Char) : Bool := isAsciiLetter c || isDigitC c

/-- The OSC parameter class of the regex: characters allowed between
semicolons in the BEL-terminated branch. -/
def isLinkChar (c : Char) : Bool :=
  c == '-' || isAsciiLetter c || isDigitC c || c == '/' || c == '#' || c == '&' ||
  c == '.' || c == ':' || c == '=' || c == '?' || c == '%' || c == '@' ||
  c == '~' || c == '_'

/-- The CSI final-byte class of the regex: digits, `A`-`P`, `R`-`T`, `X`,
`Z`, `c`, `f`-`n`, `q`-`u`, `y`, `=`, `>`, `<`, `~`. -/
def isFinalByte (c : Char) : Bool :=
  isDigitC c || (65 ≤ c.toNat && c.toNat ≤ 80) || (82 ≤ c.toNat && c.toNat ≤ 84) ||
  c == 'X' || c == 'Z' || c == 'c' || (102 ≤ c.toNat && c.toNat ≤ 110) ||
  (113 ≤ c.toNat && c.toNat ≤ 117) || c == 'y' || c == '=' || c == '>' ||
  c == '<' || c == '~'

def reDigit : RE := .cls isDigitC

/-- Greedy bounded repetition of digits, at most `n` of them
(the regex fragments `\d\x7b0,4\x7d` and the tail of `\d\x7b1,4\x7d`). -/
def digitsAtMost : Nat → RE
  | 0 => .eps
  | n + 1 => .opt (.seq reDigit (digitsAtMost n))

def reSemi : RE := .cls (fun c => c == ';')

/-- The BEL-terminated branch of `ANSI_PATTERN`. -/
def oscPart : RE :=
  .seq
    (.opt (.alt
      (.star (.seq reSemi (.seq (.cls isLinkChar) (.star (.cls isLinkChar)))))
      (.seq (.seq (.cls isAlnumC) (.star (.cls isAlnumC)))
            (.star (.seq reSemi (.star (.cls isLinkChar)))))))
    (.cls (fun c => c == '\u0007'))

/-- The CSI branch of `ANSI_PATTERN`. -/
def csiPart : RE :=
  .seq
    (.opt (.seq (.seq reDigit (digitsAtMost 3))
                (.star (.seq reSemi (digitsAtMost 4)))))
    (.cls isFinalByte)

/-- The full `ANSI_PATTERN` regex of the source. -/
def ansiRE : RE := .seq (.cls isIntro) (.seq (.star (.cls isIntro2)) (.alt oscPart csiPart))

/-- One pass of `String.prototype.replace(ANSI_PATTERN, "")` with a global
regex: scan left to right, and at each position remove the match found there
(if any) and continue after it.  The fuel is an upper bound on the number of
steps; each step consumes at least one character, so `fuel = s.length`
suffices (the inner bound check is a termination artifact that never fails,
because every `ANSI_PATTERN` match consumes its introducer character). -/
def stripGo : Nat → List Char → List Char
  | _, [] => []
  | 0, s => s
  | fuel + 1, c :: cs =>
      match (Mtch ansiRE (c :: cs)).head? with
      | some t =>
          if t.length < cs.length + 1 then stripGo fuel t else c :: stripGo fuel cs
      | none => c :: stripGo fuel cs

/-- `stripAnsiCode` from the source: remove every `ANSI_PATTERN` match. -/
def stripAnsiCode (s : List Char) : List Char := stripGo s.length s

/-! ### The cell grid -/

/-- The grid state of a `TermBox` instance: the `columns` and `rows` fields
and the `cells` matrix (row-major; each cell is a string). -/
structure Grid where
  columns : Int
  rows : Int
  cells : List (List (List Char))
deriving DecidableEq

/-- The `TermBox` constructor given an explicit size.  JavaScript's
`new Array(rows)` throws `RangeError` for a negative length, and the per-row
`new Array(columns)` is only evaluated when `rows > 0`; failure is modelled
as `none`.  On success every cell is the one-character string `" "`.
(Named `initGrid` here because the constructor's name is reserved in Lean.) -/
def initGrid (columns rows : Int) : Option Grid :=
  if rows < 0 then none
  else if 0 < rows ∧ columns < 0 then none
  else some { columns := columns, rows := rows,
              cells := List.replicate rows.toNat (List.replicate columns.toNat [' ']) }

/-- `setCell(x, y, char)` from the source: out-of-range coordinates return
without doing anything; in range, if `stripAnsiCode(char).length > 1`
(JavaScript UTF-16 length) it throws (`none`); otherwise it stores `char`
verbatim at row `y`, column `x`. -/
def setCell (g : Grid) (x y : Int) (char : List Char) : Option Grid :=
  if g.columns ≤ x ∨ x < 0 then some g
  else if g.rows ≤ y ∨ y < 0 then some g
  else if 1 < jsLength (stripAnsiCode char) then none
  else some { g with
    cells := g.cells.set y.toNat ((g.cells.getD y.toNat []).set x.toNat char) }

/-- `Array.prototype.join("\n")`: rows joined by a single newline. -/
def joinRows : List (List Char) → List Char
  | [] => []
  | [r] => r
  | r :: r2 :: rs => r ++ '\n' :: joinRows (r2 :: rs)

/-- The string written by `flush` after the cursor move:
`this.cells.map((v) => v.join("")).join("\n")`. -/
def render (g : Grid) : List Char := joinRows (g.cells.map List.flatten)

/-! ### The ANSI sequence table -/

def ESC : String := "\x1B["
def SAVE : String := "\x1B7"
def RESTORE : String := "\x1B8"
def HIDE : String := "?25l"
def SHOW : String := "?25h"
def POSITION : String := "6n"
def CLEAR_SCREEN : String := "2J"
def HOME : String := "H"

/-- `cursor(action)` from the source: prefix the action with `ESC [`. -/
def cursorSeq (action : String) : String := ESC ++ action

/-- Bytes written by `cursorHide()`. -/
def cursorHideSeq : String := cursorSeq HIDE

/-- Bytes written by `cursorShow()`. -/
def cursorShowSeq : String := cursorSeq SHOW

/-- Bytes written by `cursorSave()`. -/
def cursorSaveSeq : String := SAVE

/-- Bytes written by `cursorRestore()`. -/
def cursorRestoreSeq : String := RESTORE

/-- Bytes written by `cursorTo(x, y)`: the template literal
interpolates `y`, then `x`, then `H`, after the `ESC [` prefix. -/
def cursorToSeq (x y : Int) : String := cursorSeq (toString y ++ ";" ++ toString x ++ HOME)

/-- Bytes written by `screenClear()`. -/
def screenClearSeq : String := cursorSeq CLEAR_SCREEN

/-- Bytes written by `screenReset()`: `ESC + (this.rows - 1) + "A\r\x1b[?0J"`. -/
def screenResetSeq (g : Grid) : String := ESC ++ toString (g.rows - 1) ++ "A\r\x1B[?0J"

/-- The full byte stream produced by `flush()`: the `cursorTo(0, 0)` write
followed by the rendered grid, nothing else. -/
def flushOutput (g : Grid) : List Char := (cursorToSeq 0 0).data ++ render g

/-! ### The terminal device model

`cursorPosition` and `size` interact with the process's terminal devices.
The ambient device state is modelled explicitly: whether stdout/stdin are
terminal-attached, the OS-reported console size, and the outcome of the one
`Deno.stdin.read` the query performs (`Except.error` for a rejected read,
`Except.ok buf` for a completed read whose decoded buffer contents are
`buf`).  Each operation returns its result together with the trace of device
actions it performed, in order. -/

structure Size where
  columns : Nat
  rows : Nat
deriving DecidableEq, Repr

inductive Ev where
  | write (s : String) : Ev
  | setRaw (b : Bool) : Ev
  | readStdin : Ev
  | queryConsoleSize : Ev
deriving DecidableEq, Repr

structure DeviceCtx where
  stdoutTTY : Bool
  stdinTTY : Bool
  consoleSize : Size
  readResult : Except Unit (List Char)

/-- The module-level `isTTY` constant:
`Deno.isatty(Deno.stdout.rid) && Deno.isatty(Deno.stdin.rid)`. -/
def isTTY (d : DeviceCtx) : Bool := d.stdoutTTY && d.stdinTTY

/-- `size()` from the source: a fixed fallback when not terminal-attached,
otherwise two `Deno.consoleSize()` calls (one per field). -/
def sizeRun (d : DeviceCtx) : Size × List Ev :=
  if isTTY d = false then (⟨100, 50⟩, [])
  else (⟨d.consoleSize.columns, d.consoleSize.rows⟩, [.queryConsoleSize, .queryConsoleSize])

/-! ### The cursor-position reply parser -/

/-- Attempt of the regex `\[(\d+);(\d+)R` at the start of the string: a `[`,
a nonempty digit run, `;`, a nonempty digit run, `R`.  Greedy `\d+`
followed by a non-digit literal is equivalent to taking the maximal digit
run.  Returns the two captured digit groups. -/
def tryPosHere : List Char → Option (List Char × List Char)
  | [] => none
  | c :: rest =>
      if c = '[' then
        match rest.dropWhile isDigitC with
        | c2 :: r2 =>
            if c2 = ';' then
              if rest.takeWhile isDigitC = [] ∨ r2.takeWhile isDigitC = [] then none
              else
                match r2.dropWhile isDigitC with
                | c3 :: _ =>
                    if c3 = 'R' then
                      some (rest.takeWhile isDigitC, r2.takeWhile isDigitC)
                    else none
                | [] => none
            else none
        | [] => none
      else none

/-- `output.match(/\[(\d+);(\d+)R/)`: the leftmost match of the pattern
anywhere in the string, as its two captured digit groups. -/
def matchPositionReply : List Char → Option (List Char × List Char)
  | [] => none
  | c :: cs =>
      match tryPosHere (c :: cs) with
      | some p => some p
      | none => matchPositionReply cs

/-- `parseInt` on a string of ASCII digits, base 10. -/
def natOfDigits (l : List Char) : Nat := l.foldl (fun n c => n * 10 + (c.toNat - 48)) 0

inductive QueryErr where
  | readError : QueryErr
  | parseError : QueryErr
deriving DecidableEq, Repr

/-- `cursorPosition()` from the source, as a function of the device context:
when not terminal-attached it returns `(0, 0)` with no device action;
otherwise it writes `ESC[6n`, enables raw mode and reads.  If the read
rejects, the rejection propagates immediately — the `setRaw(false)` line is
only reached after a completed read.  After a completed read the decoded
buffer is matched against `\[(\d+);(\d+)R`; a match yields the parsed size,
otherwise the call throws (`parseError`). -/
def cursorPositionRun (d : DeviceCtx) : Except QueryErr Size × List Ev :=
  if isTTY d = false then (.ok ⟨0, 0⟩, [])
  else
    match d.readResult with
    | .error _ => (.error .readError, [.write (ESC ++ POSITION), .setRaw true, .readStdin])
    | .ok buf =>
        match matchPositionReply buf with
        | some p =>
            (.ok ⟨natOfDigits p.2, natOfDigits p.1⟩,
             [.write (ESC ++ POSITION), .setRaw true, .readStdin, .setRaw false])
        | none =>
            (.error .parseError,
             [.write (ESC ++ POSITION), .setRaw true, .readStdin, .setRaw false])

/-- Raw-mode state of the input device after a trace of device actions,
starting from `b`. -/
def rawAfter (b : Bool) : List Ev → Bool
  | [] => b
  | .setRaw v :: es => rawAfter v es
  | .write _ :: es => rawAfter b es
  | .readStdin :: es => rawAfter b es
  | .queryConsoleSize :: es => rawAfter b es

/-- Follows the spec's words, for comparison with the code's matcher: the
decoded reply "matches against `ESC[<rows>;<cols>R`", i.e. somewhere in the
string an ESC character is immediately followed by `[`, a nonempty digit
run, `;`, a nonempty digit run and `R`. -/
def specEscHere : List Char → Bool
  | '\u001B' :: '[' :: rest =>
      (match rest.dropWhile isDigitC with
       | ';' :: r2 =>
           (match r2.dropWhile isDigitC with
            | 'R' :: _ =>
                decide (rest.takeWhile isDigitC ≠ []) &&
                decide (r2.takeWhile isDigitC ≠ [])
            | _ => false)
       | _ => false)
  | _ => false

/-- Follows the spec's words: whether the reply contains a match of
`ESC[<rows>;<cols>R` at some position. -/
def specEscPosMatch : List Char → Bool
  | [] => false
  | c :: cs => specEscHere (c :: cs) || specEscPosMatch cs

/-! ### List helper lemmas -/

theorem getq_set_self {α : Type} (l : List α) (n : Nat) (a : α) (h : n < l.length) :
    (l.set n a).get? n = some a := by
  induction l generalizing n with
  | nil => simp at h
  | cons b l ih =>
    cases n with
    | zero => rfl
    | succ n => simpa using ih n (by simpa using h)

theorem getq_set_ne {α : Type} (l : List α) (n m : Nat) (a : α) (h : n ≠ m) :
    (l.set n a).get? m = l.get? m := by
  induction l generalizing n m with
  | nil => simp
  | cons b l ih =>
    cases n with
    | zero =>
      cases m with
      | zero => exact absurd rfl h
      | succ m => rfl
    | succ n =>
      cases m with
      | zero => rfl
      | succ m => simpa using ih n m (by omega)

theorem set_of_le {α : Type} (l : List α) (n : Nat) (a : α) (h : l.length ≤ n) :
    l.set n a = l := by
  induction l generalizing n with
  | nil => rfl
  | cons b l ih =>
    cases n with
    | zero => simp at h
    | succ n => simpa using ih n (by simpa using h)

theorem getq_append_left {α : Type} (l1 l2 : List α) (n : Nat) (h : n < l1.length) :
    (l1 ++ l2).get? n = l1.get? n := by
  induction l1 generalizing n with
  | nil => simp at h
  | cons b l ih =>
    cases n with
    | zero => rfl
    | succ n => simpa using ih n (by simpa using h)

theorem getq_append_right {α : Type} (l1 l2 : List α) (n : Nat) (h : l1.length ≤ n) :
    (l1 ++ l2).get? n = l2.get? (n - l1.length) := by
  induction l1 generalizing n with
  | nil => simp
  | cons b l ih =>
    cases n with
    | zero => simp at h
    | succ n =>
      have := ih n (by simpa using h)
      simpa [Nat.succ_sub_succ] using this

theorem getq_replicate {α : Type} (n m : Nat) (a : α) (h : m < n) :
    (List.replicate n a).get? m = some a := by
  induction n generalizing m with
  | zero => omega
  | succ n ih =>
    cases m with
    | zero => rfl
    | succ m => simpa [List.replicate_succ] using ih m (by omega)

theorem getq_map {α β : Type} (f : α → β) (l : List α) (n : Nat) :
    (l.map f).get? n = (l.get? n).map f := by
  induction l generalizing n with
  | nil => rfl
  | cons b l ih =>
    cases n with
    | zero => rfl
    | succ n => simp [ih n]

theorem getq_mem {α : Type} (l : List α) (n : Nat) (a : α) (h : l.get? n = some a) :
    a ∈ l := by
  induction l generalizing n with
  | nil => simp at h
  | cons b l ih =>
    cases n with
    | zero =>
      simp only [List.get?] at h
      exact (Option.some.injEq _ _ ▸ h) ▸ List.mem_cons_self b l
    | succ n => exact List.mem_cons_of_mem b (ih n h)

theorem mem_set_cases {α : Type} (l : List α) (n : Nat) (a b : α) (h : b ∈ l.set n a) :
    b ∈ l ∨ b = a := by
  induction l generalizing n with
  | nil => simp [List.set] at h
  | cons x l ih =>
    cases n with
    | zero =>
      rcases List.mem_cons.mp h with h1 | h1
      · exact Or.inr h1
      · exact Or.inl (List.mem_cons_of_mem x h1)
    | succ n =>
      rcases List.mem_cons.mp h with h1 | h1
      · exact Or.inl (h1 ▸ List.mem_cons_self x l)
      · rcases ih n h1 with h2 | h2
        · exact Or.inl (List.mem_cons_of_mem x h2)
        · exact Or.inr h2

theorem joinRows_cons (a : List Char) (l : List (List Char)) (h : l ≠ []) :
    joinRows (a :: l) = a ++ '\n' :: joinRows l := by
  cases l with
  | nil => exact absurd rfl h
  | cons b l => rfl

theorem joinRows_get (l : List (List Char)) (c : Nat)
    (hc : ∀ row ∈ l, row.length = c) (y x : Nat)
    (hy : y < l.length) (hx : x < c) :
    (joinRows l).get? (y * (c + 1) + x) = (l.get? y).bind (fun row => row.get? x) := by
  induction l generalizing y with
  | nil => simp at hy
  | cons a l ih =>
    have ha : a.length = c := hc a (List.mem_cons_self a l)
    cases l with
    | nil =>
      have hy0 : y = 0 := by simpa using hy
      subst hy0
      simp [joinRows]
    | cons b l2 =>
      rw [joinRows_cons a (b :: l2) (by simp)]
      cases y with
      | zero =>
        have hidx : 0 * (c + 1) + x = x := by omega
        rw [hidx, getq_append_left _ _ x (by omega)]
        rfl
      | succ y =>
        have hidx : (y + 1) * (c + 1) + x = a.length + (1 + (y * (c + 1) + x)) := by
          rw [ha]; ring
        rw [hidx, getq_append_right _ _ _ (by omega)]
        have hsub : a.length + (1 + (y * (c + 1) + x)) - a.length = (y * (c + 1) + x) + 1 := by
          omega
        rw [hsub]
        have hrec := ih (fun row hr => hc row (List.mem_cons_of_mem a hr)) y
          (by simpa using hy)
        simpa using hrec

theorem flatten_single_get (l : List (List Char))
    (h1 : ∀ cell ∈ l, cell.length = 1) (x : Nat) :
    l.flatten.get? x = (l.get? x).bind List.head? := by
  induction l generalizing x with
  | nil => rfl
  | cons a l ih =>
    obtain ⟨c0, rfl⟩ := List.length_eq_one.mp (h1 a (List.mem_cons_self a l))
    cases x with
    | zero => rfl
    | succ x =>
      simpa using ih (fun cell hc => h1 cell (List.mem_cons_of_mem _ hc)) x

theorem flatten_single_length (l : List (List Char))
    (h1 : ∀ cell ∈ l, cell.length = 1) :
    l.flatten.length = l.length := by
  induction l with
  | nil => rfl
  | cons a l ih =>
    have ha := h1 a (List.mem_cons_self a l)
    have hl := ih (fun cell hc => h1 cell (List.mem_cons_of_mem _ hc))
    simp [ha, hl]
    omega

theorem flatten_replicate_single {α : Type} (n : Nat) (a : α) :
    (List.replicate n [a]).flatten = List.replicate n a := by
  induction n with
  | zero => rfl
  | succ n ih => simp [List.replicate_succ, ih]

theorem mem_takeWhile_pred {α : Type} (p : α → Bool) (l : List α) (c : α)
    (h : c ∈ l.takeWhile p) : p c = true := by
  induction l with
  | nil => simp [List.takeWhile] at h
  | cons a l ih =>
    rw [List.takeWhile_cons] at h
    by_cases hp : p a = true
    · rw [if_pos hp] at h
      rcases List.mem_cons.mp h with rfl | h2
      · exact hp
      · exact ih h2
    · rw [if_neg hp] at h
      simp at h

theorem takeWhile_all_append {α : Type} (p : α → Bool) (l : List α) (x : α)
    (rest : List α) (h : ∀ c ∈ l, p c = true) (hx : p x = false) :
    (l ++ x :: rest).takeWhile p = l := by
  induction l with
  | nil => simp [List.takeWhile_cons, hx]
  | cons a l ih =>
    have ha := h a (List.mem_cons_self a l)
    simp [List.takeWhile_cons, ha, ih (fun c hc => h c (List.mem_cons_of_mem _ hc))]

theorem dropWhile_all_append {α : Type} (p : α → Bool) (l : List α) (x : α)
    (rest : List α) (h : ∀ c ∈ l, p c = true) (hx : p x = false) :
    (l ++ x :: rest).dropWhile p = x :: rest := by
  induction l with
  | nil => simp [List.dropWhile_cons, hx]
  | cons a l ih =>
    have ha := h a (List.mem_cons_self a l)
    simp [List.dropWhile_cons, ha, ih (fun c hc => h c (List.mem_cons_of_mem _ hc))]

/-! ### Case analysis of `setCell` -/

/-- Shape invariant every grid built by the constructor satisfies and
`setCell` preserves: the stored dimension fields agree with the actual
matrix dimensions. -/
def WellFormed (g : Grid) (c r : Nat) : Prop :=
  g.columns = (c : Int) ∧ g.rows = (r : Int) ∧ g.cells.length = r ∧
  ∀ row ∈ g.cells, row.length = c

/-- For in-bounds coordinates, `setCell` reduces to its content check and
store. -/
theorem setCell_inbounds (g : Grid) (x y : Nat) (t : List Char)
    (hx : (x : Int) < g.columns) (hy : (y : Int) < g.rows) :
    setCell g x y t =
      if 1 < jsLength (stripAnsiCode t) then none
      else some { g with cells := g.cells.set y ((g.cells.getD y []).set x t) } := by
  unfold setCell
  rw [if_neg (by omega), if_neg (by omega),
    show ((x : Int)).toNat = x by omega, show ((y : Int)).toNat = y by omega]

/-- C2: `setCell(x, y, text)` fails exactly when `(x, y)` is inside
`[0, columns) x [0, rows)` and the stripped content is longer than one unit
(the source measures JavaScript UTF-16 `length` after `stripAnsiCode`); the
failure is a throw before any store, so the grid is untouched (the model
returns no grid at all).  Every out-of-bounds call — whatever the content —
returns success with the grid object unchanged, hence a byte-identical
rendering. -/
theorem setCell_failure_iff (g : Grid) (x y : Int) (t : List Char) :
    (setCell g x y t = none ↔
      (0 ≤ x ∧ x < g.columns ∧ 0 ≤ y ∧ y < g.rows ∧
        1 < jsLength (stripAnsiCode t))) ∧
    ((x < 0 ∨ g.columns ≤ x ∨ y < 0 ∨ g.rows ≤ y) → setCell g x y t = some g) := by
  unfold setCell
  split_ifs with h1 h2 h3
  · exact ⟨by simp; omega, fun _ => rfl⟩
  · exact ⟨by simp; omega, fun _ => rfl⟩
  · exact ⟨by simp; omega, fun hc => absurd hc (by omega)⟩
  · exact ⟨by simp; omega, fun hc => absurd hc (by omega)⟩

theorem setCell_failure_iff_w :
    (setCell ⟨2, 1, [[[' '], [' ']]]⟩ 0 0 ['a', 'b'] = none) ∧
    (setCell ⟨2, 1, [[[' '], [' ']]]⟩ 5 0 ['a', 'b'] = some ⟨2, 1, [[[' '], [' ']]]⟩) :=
  ⟨((setCell_failure_iff ⟨2, 1, [[[' '], [' ']]]⟩ 0 0 ['a', 'b']).1).mpr (by decide),
   (setCell_failure_iff ⟨2, 1, [[[' '], [' ']]]⟩ 5 0 ['a', 'b']).2 (by decide)⟩

/-- C9: a successful in-bounds `setCell` modifies only the addressed cell:
the dimension fields are unchanged and the content of every other cell is
unchanged. -/
theorem setCell_frame_effect (g g2 : Grid) (x y : Nat) (t : List Char)
    (hx : (x : Int) < g.columns) (hy : (y : Int) < g.rows)
    (hset : setCell g x y t = some g2) :
    g2.columns = g.columns ∧ g2.rows = g.rows ∧
    ∀ y2 x2 : Nat, ¬(y2 = y ∧ x2 = x) →
      (g2.cells.get? y2).bind (fun row => row.get? x2) =
      (g.cells.get? y2).bind (fun row => row.get? x2) := by
  rw [setCell_inbounds g x y t hx hy] at hset
  by_cases hs : 1 < jsLength (stripAnsiCode t)
  · rw [if_pos hs] at hset; cases hset
  · rw [if_neg hs] at hset
    cases hset
    refine ⟨rfl, rfl, ?_⟩
    intro y2 x2 hne
    by_cases hyy : y2 = y
    · subst hyy
      have hxx : x2 ≠ x := fun hc => hne ⟨rfl, hc⟩
      by_cases hylen : y2 < g.cells.length
      · obtain ⟨row0, hrow0⟩ : ∃ row, g.cells.get? y2 = some row := by
          cases hh : g.cells.get? y2 with
          | none => exact absurd (List.get?_eq_none.mp hh) (by omega)
          | some rr => exact ⟨rr, rfl⟩
        have hD : g.cells.getD y2 [] = row0 := by
          simp [List.getD, ← List.get?_eq_getElem?, hrow0]
        show ((g.cells.set y2 ((g.cells.getD y2 []).set x t)).get? y2).bind
            (fun row => row.get? x2) = _
        rw [hD, getq_set_self _ _ _ hylen, hrow0]
        show (row0.set x t).get? x2 = row0.get? x2
        exact getq_set_ne _ _ _ _ (fun hc => hxx hc.symm)
      · show ((g.cells.set y2 ((g.cells.getD y2 []).set x t)).get? y2).bind
            (fun row => row.get? x2) = _
        rw [set_of_le _ _ _ (by omega)]
    · show ((g.cells.set y ((g.cells.getD y []).set x t)).get? y2).bind
          (fun row => row.get? x2) = _
      rw [getq_set_ne _ _ _ _ (fun hc => hyy hc.symm)]

theorem setCell_frame_effect_w :
    ((⟨2, 1, [[['a'], [' ']]]⟩ : Grid).cells.get? 0).bind (fun row => row.get? 1) =
    ((⟨2, 1, [[[' '], [' ']]]⟩ : Grid).cells.get? 0).bind (fun row => row.get? 1) :=
  (setCell_frame_effect ⟨2, 1, [[[' '], [' ']]]⟩ ⟨2, 1, [[['a'], [' ']]]⟩ 0 0 ['a']
    (by decide) (by decide) (by decide)).2.2 0 1 (by decide)

/-- Shared store lemma: on a well-formed grid, an in-bounds `setCell` whose
content passes the length check succeeds and stores the content verbatim. -/
theorem setCell_store (g : Grid) (c r x y : Nat) (t : List Char)
    (hwf : WellFormed g c r) (hx : x < c) (hy : y < r)
    (hs : jsLength (stripAnsiCode t) ≤ 1) :
    ∃ g2, setCell g x y t = some g2 ∧
      (g2.cells.get? y).bind (fun row => row.get? x) = some t := by
  obtain ⟨hcol, hrow, hlen, hrl⟩ := hwf
  have hxI : (x : Int) < g.columns := by rw [hcol]; exact_mod_cast hx
  have hyI : (y : Int) < g.rows := by rw [hrow]; exact_mod_cast hy
  rw [setCell_inbounds g x y t hxI hyI, if_neg (by omega)]
  refine ⟨_, rfl, ?_⟩
  obtain ⟨row0, hrow0⟩ : ∃ row, g.cells.get? y = some row := by
    cases hh : g.cells.get? y with
    | none => exact absurd (List.get?_eq_none.mp hh) (by omega)
    | some rr => exact ⟨rr, rfl⟩
  have hD : g.cells.getD y [] = row0 := by
    simp [List.getD, ← List.get?_eq_getElem?, hrow0]
  have hr0 : row0.length = c := hrl row0 (getq_mem _ _ _ hrow0)
  show ((g.cells.set y ((g.cells.getD y []).set x t)).get? y).bind
      (fun row => row.get? x) = some t
  rw [hD, getq_set_self _ _ _ (by omega)]
  show (row0.set x t).get? x = some t
  exact getq_set_self _ _ _ (by omega)

/-- C8 (amended): for in-bounds coordinates `setCell` rejects exactly the
texts whose stripped length measured in UTF-16 code units — the unit of
JavaScript's `String.length`, not code points — exceeds one, and stores
every accepted text verbatim, styling codes included. -/
theorem setCell_utf16_amended (g : Grid) (c r x y : Nat) (t : List Char)
    (hwf : WellFormed g c r) (hx : x < c) (hy : y < r) :
    (setCell g x y t = none ↔ 1 < jsLength (stripAnsiCode t)) ∧
    (jsLength (stripAnsiCode t) ≤ 1 →
      ∃ g2, setCell g x y t = some g2 ∧
        (g2.cells.get? y).bind (fun row => row.get? x) = some t) := by
  obtain ⟨hcol, hrow, hlen, hrl⟩ := hwf
  have hxI : (x : Int) < g.columns := by rw [hcol]; exact_mod_cast hx
  have hyI : (y : Int) < g.rows := by rw [hrow]; exact_mod_cast hy
  constructor
  · rw [setCell_inbounds g x y t hxI hyI]
    by_cases hs : 1 < jsLength (stripAnsiCode t)
    · simp [hs]
    · simp [hs]
  · exact fun hs => setCell_store g c r x y t ⟨hcol, hrow, hlen, hrl⟩ hx hy hs

/-- C8 counterexample: the text consisting of the single code point U+1F600
has stripped visible width exactly one code point, yet an in-bounds
`setCell` rejects it, because the source compares JavaScript UTF-16
`length`, which is 2 for an astral code point. -/
theorem setCell_astral_cex :
    (stripAnsiCode [Char.ofNat 128512]).length = 1 ∧
    setCell ⟨1, 1, [[[' ']]]⟩ 0 0 [Char.ofNat 128512] = none := by
  exact ⟨by decide, by decide⟩

theorem setCell_utf16_amended_w :
    ∃ g2, setCell ⟨1, 1, [[[' ']]]⟩ 0 0 ['a'] = some g2 ∧
      (g2.cells.get? 0).bind (fun row => row.get? 0) = some ['a'] :=
  (setCell_utf16_amended ⟨1, 1, [[[' ']]]⟩ 1 1 0 0 ['a']
    ⟨rfl, rfl, rfl, by decide⟩ (by decide) (by decide)).2 (by decide)

/-- C10: `setCell` accepts any text whose stripped UTF-16 length is 0 or 1 —
in particular the empty string, and pure styling strings such as `ESC[31m`
which strips to the empty string — storing it verbatim; consequently a
rendered row can contain fewer visible characters than the grid's column
count: storing the empty string in a 2-column one-row grid yields a
rendering of a single character. -/
theorem setCell_short_content (g : Grid) (c r x y : Nat)
    (hwf : WellFormed g c r) (hx : x < c) (hy : y < r) :
    (∀ t, jsLength (stripAnsiCode t) ≤ 1 →
      ∃ g2, setCell g x y t = some g2 ∧
        (g2.cells.get? y).bind (fun row => row.get? x) = some t) ∧
    stripAnsiCode "\x1B[31m".data = [] ∧
    (∃ g2, setCell ⟨2, 1, [[[' '], [' ']]]⟩ 0 0 [] = some g2 ∧
      jsLength (render g2) = 1 ∧ (⟨2, 1, [[[' '], [' ']]]⟩ : Grid).columns = 2) := by
  refine ⟨fun t ht => setCell_store g c r x y t hwf hx hy ht, by decide, ?_⟩
  exact ⟨⟨2, 1, [[[], [' ']]]⟩, by decide, by decide, rfl⟩

theorem setCell_short_content_w :
    ∃ g2, setCell ⟨2, 1, [[[' '], [' ']]]⟩ 0 0 "\x1B[31m".data = some g2 ∧
      (g2.cells.get? 0).bind (fun row => row.get? 0) = some "\x1B[31m".data :=
  (setCell_short_content ⟨2, 1, [[[' '], [' ']]]⟩ 2 1 0 0
    ⟨rfl, rfl, rfl, by decide⟩ (by decide) (by decide)).1 "\x1B[31m".data (by decide)

/-- C7 (amended): for `columns ≥ 0` and `rows ≥ 0` construction allocates
`rows` rows of `columns` cells each, all set to the space character, so the
initial rendering is `rows` rows of spaces joined by newlines; construction
fails exactly when `rows < 0`, or `rows > 0` and `columns < 0` — with
`rows = 0` the per-row allocation is never evaluated, so a negative
`columns` is accepted. -/
theorem initGrid_amended (c r : Int) :
    (0 ≤ c → 0 ≤ r →
      initGrid c r =
        some ⟨c, r, List.replicate r.toNat (List.replicate c.toNat [' '])⟩ ∧
      ∀ g, initGrid c r = some g →
        render g = joinRows (List.replicate r.toNat (List.replicate c.toNat ' '))) ∧
    (initGrid c r = none ↔ (r < 0 ∨ (0 < r ∧ c < 0))) := by
  constructor
  · intro hc hr
    have hsome : initGrid c r =
        some ⟨c, r, List.replicate r.toNat (List.replicate c.toNat [' '])⟩ := by
      unfold initGrid
      rw [if_neg (by omega), if_neg (by omega)]
    refine ⟨hsome, fun g hg => ?_⟩
    rw [hsome] at hg
    cases hg
    simp [render, List.map_replicate, flatten_replicate_single]
  · unfold initGrid
    split_ifs with h1 h2
    · simp; omega
    · simp; omega
    · simp; omega

/-- C7 counterexample: with `columns = -1` and `rows = 0` the constructor
succeeds (zero rows are allocated, so the negative per-row length is never
evaluated), although the claim requires failure whenever `columns < 0`. -/
theorem initGrid_negcols_cex : initGrid (-1) 0 = some ⟨-1, 0, []⟩ := by decide

theorem initGrid_amended_w :
    initGrid 2 1 = some ⟨2, 1, List.replicate 1 (List.replicate 2 [' '])⟩ :=
  ((initGrid_amended 2 1).1 (by decide) (by decide)).1

/-- C6: each cursor/screen operation emits exactly its table byte sequence:
hide `ESC[?25l`, show `ESC[?25h`, save `ESC7`, restore `ESC8`, clear
`ESC[2J`; `cursorTo(x, y)` emits `ESC[` then `y`, `;`, `x`, `H` with the
caller-supplied coordinates passed through unmodified, so `cursorTo(3, 5)`
emits exactly `ESC[5;3H`; `screenReset` on a grid of `rows` rows emits
`ESC[` then `rows - 1`, `A`, carriage return, `ESC[?0J`, so 24 rows give
exactly `ESC[23A` CR `ESC[?0J`. -/
theorem ansi_sequence_table :
    cursorHideSeq = "\x1B[?25l" ∧ cursorShowSeq = "\x1B[?25h" ∧
    cursorSaveSeq = "\x1B7" ∧ cursorRestoreSeq = "\x1B8" ∧
    screenClearSeq = "\x1B[2J" ∧
    (∀ x y : Int, (cursorToSeq x y).data =
      "\x1B[".data ++ (toString y).data ++ ";".data ++ (toString x).data ++ "H".data) ∧
    cursorToSeq 3 5 = "\x1B[5;3H" ∧
    (∀ g : Grid, (screenResetSeq g).data =
      "\x1B[".data ++ (toString (g.rows - 1)).data ++ "A\r\x1B[?0J".data) ∧
    (∀ g : Grid, g.rows = 24 → screenResetSeq g = "\x1B[23A\r\x1B[?0J") := by
  refine ⟨rfl, rfl, rfl, rfl, rfl, ?_, by decide, ?_, ?_⟩
  · intro x y
    simp [cursorToSeq, cursorSeq, ESC, HOME]
  · intro g
    simp [screenResetSeq, ESC]
  · intro g h
    simp only [screenResetSeq, h, ESC]
    decide

theorem ansi_sequence_table_w :
    screenResetSeq ⟨0, 24, []⟩ = "\x1B[23A\r\x1B[?0J" :=
  ansi_sequence_table.2.2.2.2.2.2.2.2 ⟨0, 24, []⟩ rfl

/-- C4: the terminal-attachment flag requires both the output and the input
device to be terminal-attached; whenever it is false, `size()` returns the
fixed fallback 100 by 50 with no OS dimension query, and `cursorPosition()`
returns zeros immediately with no write, no raw-mode toggle and no read
(its device trace is empty). -/
theorem isTTY_and_fallbacks (o i : Bool) (cs : Size) (rr : Except Unit (List Char)) :
    (isTTY ⟨o, i, cs, rr⟩ = true ↔ (o = true ∧ i = true)) ∧
    (isTTY ⟨o, i, cs, rr⟩ = false →
      sizeRun ⟨o, i, cs, rr⟩ = (⟨100, 50⟩, []) ∧
      cursorPositionRun ⟨o, i, cs, rr⟩ = (.ok ⟨0, 0⟩, [])) := by
  refine ⟨by simp [isTTY], fun h => ⟨?_, ?_⟩⟩
  · unfold sizeRun
    rw [if_pos h]
  · unfold cursorPositionRun
    rw [if_pos h]

theorem isTTY_and_fallbacks_w :
    sizeRun ⟨false, true, ⟨80, 24⟩, Except.error ()⟩ = (⟨100, 50⟩, []) ∧
    cursorPositionRun ⟨false, true, ⟨80, 24⟩, Except.error ()⟩ = (.ok ⟨0, 0⟩, []) :=
  (isTTY_and_fallbacks false true ⟨80, 24⟩ (Except.error ())).2 rfl

/-- C5 counterexample: when the blocking read completes with an error, the
rejection propagates before the disarm line runs, so `cursorPosition`
returns (with an error) leaving the input device in raw mode — the
read-error exit path of the claim does not restore normal mode. -/
theorem rawmode_read_error_cex :
    (cursorPositionRun ⟨true, true, ⟨80, 24⟩, Except.error ()⟩).1 =
      .error .readError ∧
    rawAfter false (cursorPositionRun ⟨true, true, ⟨80, 24⟩, Except.error ()⟩).2 = true :=
  ⟨rfl, rfl⟩

/-- C5 (amended): on every exit path of `cursorPosition` on which the read
completed without error — successful parse and parse failure — and on the
not-a-terminal fast path, the input device is back in normal mode when the
call returns; only a read completing with an error leaves raw mode enabled. -/
theorem rawmode_restored_on_read_ok (d : DeviceCtx) (buf : List Char)
    (h : d.readResult = .ok buf) :
    rawAfter false (cursorPositionRun d).2 = false := by
  unfold cursorPositionRun
  by_cases ht : isTTY d = false
  · rw [if_pos ht]
    rfl
  · rw [if_neg ht, h]
    cases h2 : matchPositionReply buf <;> simp [h2, rawAfter]

theorem rawmode_restored_on_read_ok_w :
    rawAfter false (cursorPositionRun ⟨true, true, ⟨80, 24⟩, Except.ok ['a', 'b']⟩).2 =
      false :=
  rawmode_restored_on_read_ok ⟨true, true, ⟨80, 24⟩, Except.ok ['a', 'b']⟩ ['a', 'b'] rfl

/-- In a cell matrix all of whose cells are single characters and whose rows
all have length `c`, the rendering places the cell `(x, y)` at string offset
`y * (c + 1) + x` (each earlier row contributes its `c` characters plus one
newline). -/
theorem render_get_single (cells : List (List (List Char))) (c x y : Nat) (ch : Char)
    (hone : ∀ row ∈ cells, ∀ cell ∈ row, cell.length = 1)
    (hrl : ∀ row ∈ cells, row.length = c)
    (hy : y < cells.length) (hx : x < c)
    (hcell : (cells.get? y).bind (fun row => row.get? x) = some [ch]) :
    (joinRows (cells.map List.flatten)).get? (y * (c + 1) + x) = some ch := by
  obtain ⟨row0, hrow0⟩ : ∃ row, cells.get? y = some row := by
    cases hh : cells.get? y with
    | none => exact absurd (List.get?_eq_none.mp hh) (by omega)
    | some rr => exact ⟨rr, rfl⟩
  rw [hrow0] at hcell
  have hcell0 : row0.get? x = some [ch] := hcell
  have hmaplen : ∀ rowF ∈ cells.map List.flatten, rowF.length = c := by
    intro rowF hf
    obtain ⟨row2, hm, rfl⟩ := List.mem_map.mp hf
    rw [flatten_single_length row2 (hone row2 hm)]
    exact hrl row2 hm
  rw [joinRows_get _ c hmaplen y x (by rw [List.length_map]; omega) hx]
  rw [getq_map, hrow0]
  show row0.flatten.get? x = some ch
  rw [flatten_single_get row0 (hone row0 (getq_mem _ _ _ hrow0)) x, hcell0]
  rfl

/-- C1: after a successful in-bounds `setCell(x, y, ch)` on a well-formed
grid of single-character cells, the flushed frame is exactly the
move-to-origin sequence `ESC[0;0H` followed by the rendered grid and nothing
else; the rendering is each row's cells concatenated in column order with
rows joined by single newlines in row-major order, and `ch` sits at offset
`y * (columns + 1) + x` of it. -/
theorem flush_frame_after_setCell (g g2 : Grid) (c r x y : Nat) (ch : Char)
    (hwf : WellFormed g c r)
    (hone : ∀ row ∈ g.cells, ∀ cell ∈ row, cell.length = 1)
    (hx : x < c) (hy : y < r)
    (hset : setCell g x y [ch] = some g2) :
    flushOutput g2 = "\x1B[0;0H".data ++ render g2 ∧
    render g2 = joinRows (g2.cells.map List.flatten) ∧
    (render g2).get? (y * (c + 1) + x) = some ch := by
  obtain ⟨hcol, hrow, hlen, hrl⟩ := hwf
  have hxI : (x : Int) < g.columns := by rw [hcol]; exact_mod_cast hx
  have hyI : (y : Int) < g.rows := by rw [hrow]; exact_mod_cast hy
  rw [setCell_inbounds g x y [ch] hxI hyI] at hset
  by_cases hs : 1 < jsLength (stripAnsiCode [ch])
  · rw [if_pos hs] at hset; cases hset
  · rw [if_neg hs] at hset
    cases hset
    obtain ⟨row0, hrow0⟩ : ∃ row, g.cells.get? y = some row := by
      cases hh : g.cells.get? y with
      | none => exact absurd (List.get?_eq_none.mp hh) (by omega)
      | some rr => exact ⟨rr, rfl⟩
    have hD : g.cells.getD y [] = row0 := by
      simp [List.getD, ← List.get?_eq_getElem?, hrow0]
    have hrow0mem : row0 ∈ g.cells := getq_mem _ _ _ hrow0
    have hrow0len : row0.length = c := hrl row0 hrow0mem
    refine ⟨?_, rfl, ?_⟩
    · unfold flushOutput
      rw [show cursorToSeq 0 0 = "\x1B[0;0H" from by decide]
    · have hone2 : ∀ row ∈ g.cells.set y (row0.set x [ch]),
          ∀ cell ∈ row, cell.length = 1 := by
        intro row2 hm
        rcases mem_set_cases _ _ _ _ hm with h1 | h1
        · exact hone row2 h1
        · intro cell hc
          rw [h1] at hc
          rcases mem_set_cases _ _ _ _ hc with h2 | h2
          · exact hone row0 hrow0mem cell h2
          · rw [h2]; rfl
      have hrl2 : ∀ row ∈ g.cells.set y (row0.set x [ch]), row.length = c := by
        intro row2 hm
        rcases mem_set_cases _ _ _ _ hm with h1 | h1
        · exact hrl row2 h1
        · rw [h1, List.length_set]; exact hrow0len
      have hcell2 : ((g.cells.set y (row0.set x [ch])).get? y).bind
          (fun row => row.get? x) = some [ch] := by
        rw [getq_set_self _ _ _ (by omega)]
        show (row0.set x [ch]).get? x = some [ch]
        exact getq_set_self _ _ _ (by omega)
      show (joinRows ((g.cells.set y ((g.cells.getD y []).set x [ch])).map
        List.flatten)).get? (y * (c + 1) + x) = some ch
      rw [hD]
      exact render_get_single (g.cells.set y (row0.set x [ch])) c x y ch hone2 hrl2
        (by rw [List.length_set]; omega) hx hcell2

theorem flush_frame_after_setCell_w :
    flushOutput ⟨2, 1, [[['H'], [' ']]]⟩ =
      "\x1B[0;0H".data ++ render ⟨2, 1, [[['H'], [' ']]]⟩ ∧
    render ⟨2, 1, [[['H'], [' ']]]⟩ =
      joinRows ((⟨2, 1, [[['H'], [' ']]]⟩ : Grid).cells.map List.flatten) ∧
    (render ⟨2, 1, [[['H'], [' ']]]⟩).get? (0 * (2 + 1) + 0) = some 'H' :=
  flush_frame_after_setCell ⟨2, 1, [[[' '], [' ']]]⟩ ⟨2, 1, [[['H'], [' ']]]⟩ 2 1 0 0 'H'
    ⟨rfl, rfl, rfl, by decide⟩ (by decide) (by decide) (by decide) (by decide)

/-! ### Soundness and completeness of the reply matcher -/

def AllDigits (l : List Char) : Prop := ∀ c ∈ l, isDigitC c = true

/-- The replies the source pattern accepts: somewhere in the string a `[` is
immediately followed by a nonempty digit run, `;`, a nonempty digit run and
`R` — with no ESC requirement anywhere. -/
def PosDecomp (s : List Char) : Prop :=
  ∃ pre d1 d2 post, s = pre ++ '[' :: (d1 ++ ';' :: (d2 ++ 'R' :: post)) ∧
    d1 ≠ [] ∧ AllDigits d1 ∧ d2 ≠ [] ∧ AllDigits d2

theorem tryPosHere_sound (s : List Char) (p : List Char × List Char)
    (h : tryPosHere s = some p) :
    ∃ post, s = '[' :: (p.1 ++ ';' :: (p.2 ++ 'R' :: post)) ∧
      p.1 ≠ [] ∧ AllDigits p.1 ∧ p.2 ≠ [] ∧ AllDigits p.2 := by
  cases s with
  | nil => exact absurd h (by simp [tryPosHere])
  | cons c rest =>
    rw [tryPosHere] at h
    by_cases hc : c = '['
    · rw [if_pos hc] at h
      subst hc
      cases hdw : rest.dropWhile isDigitC with
      | nil => rw [hdw] at h; exact absurd h (by simp)
      | cons c2 r2 =>
        rw [hdw] at h
        simp only [] at h
        by_cases hc2 : c2 = ';'
        · rw [if_pos hc2] at h
          subst hc2
          by_cases hemp : rest.takeWhile isDigitC = [] ∨ r2.takeWhile isDigitC = []
          · rw [if_pos hemp] at h; exact absurd h (by simp)
          · rw [if_neg hemp] at h
            cases hdw2 : r2.dropWhile isDigitC with
            | nil => rw [hdw2] at h; exact absurd h (by simp)
            | cons c3 r3 =>
              rw [hdw2] at h
              simp only [] at h
              by_cases hc3 : c3 = 'R'
              · rw [if_pos hc3] at h
                subst hc3
                push_neg at hemp
                cases h
                refine ⟨r3, ?_, hemp.1,
                  fun ch hch => mem_takeWhile_pred _ _ _ hch, hemp.2,
                  fun ch hch => mem_takeWhile_pred _ _ _ hch⟩
                have e1 : rest = rest.takeWhile isDigitC ++
                    (';' :: (r2.takeWhile isDigitC ++ ('R' :: r3))) := by
                  calc rest = rest.takeWhile isDigitC ++ rest.dropWhile isDigitC :=
                        (List.takeWhile_append_dropWhile isDigitC rest).symm
                    _ = rest.takeWhile isDigitC ++ (';' :: r2) := by rw [hdw]
                    _ = rest.takeWhile isDigitC ++
                        (';' :: (r2.takeWhile isDigitC ++ r2.dropWhile isDigitC)) := by
                          rw [List.takeWhile_append_dropWhile]
                    _ = rest.takeWhile isDigitC ++
                        (';' :: (r2.takeWhile isDigitC ++ ('R' :: r3))) := by rw [hdw2]
                exact congrArg (List.cons '[') e1
              · rw [if_neg hc3] at h; exact absurd h (by simp)
        · rw [if_neg hc2] at h; exact absurd h (by simp)
    · rw [if_neg hc] at h; exact absurd h (by simp)

theorem tryPosHere_complete (d1 d2 post : List Char)
    (h1 : d1 ≠ []) (hd1 : AllDigits d1) (h2 : d2 ≠ []) (hd2 : AllDigits d2) :
    tryPosHere ('[' :: (d1 ++ ';' :: (d2 ++ 'R' :: post))) = some (d1, d2) := by
  have ht1 : (d1 ++ ';' :: (d2 ++ 'R' :: post)).takeWhile isDigitC = d1 :=
    takeWhile_all_append isDigitC d1 ';' _ hd1 (by decide)
  have hr1 : (d1 ++ ';' :: (d2 ++ 'R' :: post)).dropWhile isDigitC =
      ';' :: (d2 ++ 'R' :: post) :=
    dropWhile_all_append isDigitC d1 ';' _ hd1 (by decide)
  have ht2 : (d2 ++ 'R' :: post).takeWhile isDigitC = d2 :=
    takeWhile_all_append isDigitC d2 'R' post hd2 (by decide)
  have hr2 : (d2 ++ 'R' :: post).dropWhile isDigitC = 'R' :: post :=
    dropWhile_all_append isDigitC d2 'R' post hd2 (by decide)
  unfold tryPosHere
  simp [hr1, ht1, hr2, ht2, h1, h2]

theorem matchPositionReply_sound (s : List Char) (p : List Char × List Char)
    (h : matchPositionReply s = some p) : PosDecomp s := by
  induction s with
  | nil => simp [matchPositionReply] at h
  | cons c cs ih =>
    rw [matchPositionReply] at h
    cases hT : tryPosHere (c :: cs) with
    | some q =>
      obtain ⟨post, hs, hq1, hq2, hq3, hq4⟩ := tryPosHere_sound (c :: cs) q hT
      exact ⟨[], q.1, q.2, post, by simpa using hs, hq1, hq2, hq3, hq4⟩
    | none =>
      rw [hT] at h
      obtain ⟨pre, d1, d2, post, hdec, hh1, hh2, hh3, hh4⟩ := ih h
      exact ⟨c :: pre, d1, d2, post, by simp [hdec], hh1, hh2, hh3, hh4⟩

theorem matchPositionReply_complete (s : List Char) (h : PosDecomp s) :
    ∃ p, matchPositionReply s = some p := by
  obtain ⟨pre, d1, d2, post, rfl, h1, hd1, h2, hd2⟩ := h
  induction pre with
  | nil =>
    refine ⟨(d1, d2), ?_⟩
    simp only [List.nil_append]
    rw [matchPositionReply, tryPosHere_complete d1 d2 post h1 hd1 h2 hd2]
  | cons c pre ih =>
    obtain ⟨p, hp⟩ := ih
    cases hT : tryPosHere (c :: (pre ++ '[' :: (d1 ++ ';' :: (d2 ++ 'R' :: post)))) with
    | some q =>
      refine ⟨q, ?_⟩
      show matchPositionReply (c :: (pre ++ '[' :: (d1 ++ ';' :: (d2 ++ 'R' :: post)))) =
        some q
      rw [matchPositionReply, hT]
    | none =>
      refine ⟨p, ?_⟩
      show matchPositionReply (c :: (pre ++ '[' :: (d1 ++ ';' :: (d2 ++ 'R' :: post)))) =
        some p
      rw [matchPositionReply, hT]
      exact hp

/-- When terminal-attached and the read completes, the query's result is
decided by the reply matcher. -/
theorem cursorPositionRun_read_ok (d : DeviceCtx) (buf : List Char)
    (htty : isTTY d = true) (hread : d.readResult = .ok buf) :
    (cursorPositionRun d).1 =
      match matchPositionReply buf with
      | some p => .ok ⟨natOfDigits p.2, natOfDigits p.1⟩
      | none => .error .parseError := by
  unfold cursorPositionRun
  rw [if_neg (by simp [htty]), hread]
  cases hMM : matchPositionReply buf <;> simp [hMM]

/-- C3 (amended): the source pattern is `[<rows>;<cols>R` — ESC is not
required by the matcher.  When terminal-attached and the read completes, the
query succeeds exactly when the decoded reply contains, anywhere, a `[`
followed by a nonempty digit run, `;`, a nonempty digit run and `R`; it
fails with the parse error exactly when no such substring exists; and on a
match it returns columns parsed base 10 from the second captured digit run
and rows from the first. -/
theorem cursorPosition_parse_amended (d : DeviceCtx) (buf : List Char)
    (htty : isTTY d = true) (hread : d.readResult = .ok buf) :
    ((∃ sz, (cursorPositionRun d).1 = .ok sz) ↔ PosDecomp buf) ∧
    ((cursorPositionRun d).1 = .error .parseError ↔ ¬ PosDecomp buf) ∧
    (∀ p, matchPositionReply buf = some p →
      (cursorPositionRun d).1 = .ok ⟨natOfDigits p.2, natOfDigits p.1⟩) := by
  rw [cursorPositionRun_read_ok d buf htty hread]
  cases hM : matchPositionReply buf with
  | some p =>
    have hpd := matchPositionReply_sound buf p hM
    refine ⟨⟨fun _ => hpd, fun _ => ⟨_, rfl⟩⟩,
      ⟨fun hcontr => ?_, fun hnp => absurd hpd hnp⟩, fun q hq => ?_⟩
    · simp at hcontr
    · cases hq
      rfl
  | none =>
    have hnpd : ¬ PosDecomp buf := by
      intro hp
      obtain ⟨q, hq⟩ := matchPositionReply_complete buf hp
      rw [hM] at hq
      exact absurd hq (by simp)
    refine ⟨⟨fun hsz => ?_, fun hp => absurd hp hnpd⟩,
      ⟨fun _ => hnpd, fun _ => rfl⟩, fun q hq => ?_⟩
    · obtain ⟨sz, hsz⟩ := hsz
      simp at hsz
    · exact absurd hq (by simp)

/-- C3 counterexample: the reply `[40;120R` contains no ESC, so it does not
match the claimed pattern `ESC[<rows>;<cols>R`, yet `cursorPosition`
succeeds on it and returns columns 120, rows 40 instead of failing with the
parse error. -/
theorem cursorPosition_noEsc_cex :
    specEscPosMatch "[40;120R".data = false ∧
    (cursorPositionRun ⟨true, true, ⟨80, 24⟩, Except.ok "[40;120R".data⟩).1 =
      .ok ⟨120, 40⟩ :=
  ⟨rfl, rfl⟩

theorem cursorPosition_parse_amended_w :
    (cursorPositionRun ⟨true, true, ⟨80, 24⟩, Except.ok "\x1B[40;120R".data⟩).1 =
      .ok ⟨120, 40⟩ :=
  (cursorPosition_parse_amended ⟨true, true, ⟨80, 24⟩, Except.ok "\x1B[40;120R".data⟩
    "\x1B[40;120R".data rfl rfl).2.2 (['4', '0'], ['1', '2', '0']) rfl
